import Mathlib

/-!
Verification of the orbuculum trace-decoder core against its design spec.

Shallow embedding of:
  * `Src/tpiuDecoder.c` — the TPIU frame decoder (`TPIUDecoderInit`,
    `TPIUDecoderForceSync`, `TPIUPump`, `TPIUGetPacket`);
  * `Src/orbmortem.c` — the post-mortem ring buffer (`_processBlock`,
    `_dumpBuffer`, the hold/release logic of `main`).

C `uint8_t` values are `Nat` truncated with `% 256`, `uint32_t` arithmetic is
`Nat` with `% 4294967296`, `struct timeval` instants are `Nat` microseconds
(`tv_sec` of a difference is division by 1000000).  Arrays are `List Nat`
accessed with `List.getD` / `List.set`.  Fields that a C function does not
assign are carried over unchanged from the input state.
-/

namespace Orb

/-- `enum TPIUPumpState` of tpiuDecoder.h: the two states the decoder code
reaches (`TPIU_UNSYNCED`, `TPIU_RXING`). -/
inductive TPIUState
  | unsynced
  | rxing
deriving DecidableEq

/-- `enum TPIUPumpEvent`: the events `TPIUPump` returns. -/
inductive TPIUPumpEvent
  | evNone
  | evUnsynced
  | evSynced
  | evNewSync
  | evRxing
  | evRxedPacket
  | evError
deriving DecidableEq

/-- `struct TPIUDecoderStats` (fields the .c file uses). -/
structure TPIUDecoderStats where
  lostSync : Nat
  syncCount : Nat
  halfSyncCount : Nat
  error : Nat
  packets : Nat
deriving DecidableEq

/-- `struct TPIUCommsStats` as filled in by `_decodeCommsStats`. -/
structure TPIUCommsStats where
  pendingCount : Nat
  leds : Nat
  lostFrames : Nat
  totalFrames : Nat
deriving DecidableEq

/-- One `(data, stream)` element of a decoded `struct TPIUPacket`. -/
structure TPIUPacketItem where
  d : Nat
  s : Nat
deriving DecidableEq

/-- `struct TPIUPacket`: `len` is the length of the list. -/
structure TPIUPacket where
  packet : List TPIUPacketItem
deriving DecidableEq

/-- `struct TPIUDecoder`.  `rxedPacket` is the 16-byte frame scratch,
`lastPacket` the `struct timeval` timestamp in microseconds. -/
structure TPIUDecoder where
  state : TPIUState
  byteCount : Nat
  got_lowbits : Bool
  syncMonitor : Nat
  lastPacket : Nat
  currentStream : Nat
  rxedPacket : List Nat
  stats : TPIUDecoderStats
  commsStats : TPIUCommsStats
deriving DecidableEq

/-- `#define SYNCPATTERN 0xFFFFFF7F` -/
def SYNCPATTERN : Nat := 0xFFFFFF7F

/-- `#define HALFSYNC_HIGH 0x7F` -/
def HALFSYNC_HIGH : Nat := 0x7F

/-- `#define HALFSYNC_LOW 0xFF` -/
def HALFSYNC_LOW : Nat := 0xFF

/-- `#define TIMEOUT (3)` (seconds) -/
def TIMEOUT : Nat := 3

/-- `#define STAT_SYNC_BYTE (0xA6)` -/
def STAT_SYNC_BYTE : Nat := 0xA6

/-- `TPIU_PACKET_LEN` of tpiuDecoder.h: the fixed 16-byte frame length
(the spec: a fixed 16-byte physical frame). -/
def TPIU_PACKET_LEN : Nat := 16

/-- `TPIUDecoderZeroStats`: `memset(&t->stats, 0, ...)`. -/
def TPIUDecoderZeroStats (t : TPIUDecoder) : TPIUDecoder :=
  { t with stats := { lostSync := 0, syncCount := 0, halfSyncCount := 0, error := 0, packets := 0 } }

/-- `TPIUDecoderInit`: state to `TPIU_UNSYNCED`, `syncMonitor = 0`, stats
zeroed.  The other fields are left as they were (the C function does not
assign them). -/
def TPIUDecoderInit (t : TPIUDecoder) : TPIUDecoder :=
  TPIUDecoderZeroStats { t with state := TPIUState.unsynced, syncMonitor := 0 }

/-- A `struct TPIUDecoder` as C zero-initialised storage holds it (orbmortem
keeps the decoder inside the zero-initialised global `_r`). -/
def zeroedTPIUDecoder : TPIUDecoder :=
  { state := TPIUState.unsynced
    byteCount := 0
    got_lowbits := false
    syncMonitor := 0
    lastPacket := 0
    currentStream := 0
    rxedPacket := List.replicate 16 0
    stats := { lostSync := 0, syncCount := 0, halfSyncCount := 0, error := 0, packets := 0 }
    commsStats := { pendingCount := 0, leds := 0, lostFrames := 0, totalFrames := 0 } }

/-- `TPIUDecoderForceSync`: `syncCount++` when previously unsynced, then
`state = TPIU_RXING`, `byteCount = offset`, `lastPacket = now`. -/
def TPIUDecoderForceSync (t : TPIUDecoder) (offset : Nat) (now : Nat) : TPIUDecoder :=
  let t1 :=
    if t.state = TPIUState.unsynced then
      { t with stats := { t.stats with syncCount := t.stats.syncCount + 1 } }
    else t
  { t1 with state := TPIUState.rxing, byteCount := offset, lastPacket := now }

/-- `_decodeCommsStats`: little-endian field extraction from the frame
scratch. -/
def decodeCommsStats (rx : List Nat) : TPIUCommsStats :=
  { pendingCount := (rx.getD 2 0) <<< 8 ||| rx.getD 1 0
    leds := rx.getD 5 0
    lostFrames := (rx.getD 7 0) <<< 8 ||| rx.getD 6 0
    totalFrames :=
      (rx.getD 11 0) <<< 24 ||| (rx.getD 10 0) <<< 16 ||| (rx.getD 9 0) <<< 8 ||| rx.getD 8 0 }

/-- One step of the 32-bit rolling shift register:
`t->syncMonitor = (t->syncMonitor << 8) | d` on `uint32_t`. -/
def syncMonitorStep (sm d : Nat) : Nat :=
  (sm <<< 8 ||| d % 256) % 4294967296

/-- The rolling register after a byte sequence. -/
def syncMonitorRoll (sm : Nat) (bytes : List Nat) : Nat :=
  bytes.foldl syncMonitorStep sm

/-- `TPIUPump(t, d)` at instant `now` (microseconds): returns the updated
decoder and the event the C function returns. -/
def TPIUPump (t : TPIUDecoder) (dRaw : Nat) (now : Nat) : TPIUDecoder × TPIUPumpEvent :=
  let d := dRaw % 256
  let sm := syncMonitorStep t.syncMonitor dRaw
  let t0 : TPIUDecoder := { t with syncMonitor := sm }
  if sm = SYNCPATTERN then
    let r := if t0.state ≠ TPIUState.unsynced then TPIUPumpEvent.evSynced else TPIUPumpEvent.evNewSync
    let t1 :=
      if t0.byteCount = 14 ∧ t0.rxedPacket.getD 0 0 = STAT_SYNC_BYTE then
        { t0 with commsStats := decodeCommsStats t0.rxedPacket }
      else t0
    ({ t1 with
        state := TPIUState.rxing
        stats := { t1.stats with syncCount := t1.stats.syncCount + 1 }
        byteCount := 0
        got_lowbits := false
        lastPacket := now }, r)
  else
    match t0.state with
    | TPIUState.unsynced => (t0, TPIUPumpEvent.evNone)
    | TPIUState.rxing =>
      if t0.got_lowbits = false then
        ({ t0 with
            got_lowbits := true
            rxedPacket := t0.rxedPacket.set t0.byteCount d }, TPIUPumpEvent.evNone)
      else
        let t1 : TPIUDecoder := { t0 with got_lowbits := false }
        if d = HALFSYNC_HIGH ∧ t1.rxedPacket.getD t1.byteCount 0 = HALFSYNC_LOW then
          ({ t1 with
              stats := { t1.stats with halfSyncCount := t1.stats.halfSyncCount + 1 } },
            TPIUPumpEvent.evNone)
        else
          let t2 : TPIUDecoder :=
            { t1 with
                rxedPacket := t1.rxedPacket.set (t1.byteCount + 1) d
                byteCount := t1.byteCount + 2 }
          if t2.byteCount ≠ TPIU_PACKET_LEN then (t2, TPIUPumpEvent.evRxing)
          else
            let diffSec := (now - t2.lastPacket) / 1000000
            let t3 : TPIUDecoder := { t2 with lastPacket := now, byteCount := 0 }
            if diffSec < TIMEOUT then
              ({ t3 with stats := { t3.stats with packets := t3.stats.packets + 1 } },
                TPIUPumpEvent.evRxedPacket)
            else
              ({ t3 with
                  state := TPIUState.unsynced
                  stats := { t3.stats with lostSync := t3.stats.lostSync + 1 } },
                TPIUPumpEvent.evUnsynced)

/-- Pump a byte list left to right, collecting the events. -/
def TPIUPumpList (t : TPIUDecoder) (bytes : List Nat) (now : Nat) :
    TPIUDecoder × List TPIUPumpEvent :=
  match bytes with
  | [] => (t, [])
  | b :: rest =>
    let p := TPIUPump t b now
    let q := TPIUPumpList p.1 rest now
    (q.1, p.2 :: q.2)

/-- The `for (i = 0; i < TPIU_PACKET_LEN; i += 2)` loop of `TPIUGetPacket`,
walking the first 15 frame bytes two at a time (the lone final element is
byte 14, for which `i < 14` fails and no second byte is consumed).  State:
the remaining low-bits byte, `t->currentStream` and the pending
`delayedStreamChange` (`none` is `NO_CHANNEL_CHANGE`).  Returns the items
appended to `p->packet` and the final `currentStream`. -/
def tpiuGetPacketLoop : List Nat → Nat → Nat → Option Nat → List TPIUPacketItem × Nat
  | [], _, cur, _ => ([], cur)
  | [e], lowbits, cur, delayed =>
    let step :=
      if e % 2 = 1 then
        if lowbits % 2 = 1 then (([] : List TPIUPacketItem), cur, some (e / 2))
        else ([], e / 2, delayed)
      else ([{ d := e ||| lowbits % 2, s := cur }], cur, delayed)
    let cur2 := match step.2.2 with
      | some c => c
      | none => step.2.1
    (step.1, cur2)
  | e :: o :: rest, lowbits, cur, delayed =>
    let step :=
      if e % 2 = 1 then
        if lowbits % 2 = 1 then (([] : List TPIUPacketItem), cur, some (e / 2))
        else ([], e / 2, delayed)
      else ([{ d := e ||| lowbits % 2, s := cur }], cur, delayed)
    let items2 := step.1 ++ [{ d := o, s := step.2.1 }]
    let next : Nat × Option Nat := match step.2.2 with
      | some c => (c, none)
      | none => (step.2.1, none)
    let restOut := tpiuGetPacketLoop rest (lowbits / 2) next.1 next.2
    (items2 ++ restOut.1, restOut.2)

/-- `TPIUGetPacket(t, p)`.  The out-parameter is `p : Option TPIUPacket`
(`none` is a NULL pointer).  Returns (C return value, decoder after the
call, buffer after the call). -/
def TPIUGetPacket (t : TPIUDecoder) (p : Option TPIUPacket) :
    Bool × TPIUDecoder × Option TPIUPacket :=
  if t.byteCount ≠ 0 ∨ p = none then (false, t, p)
  else
    let lowbits := t.rxedPacket.getD (TPIU_PACKET_LEN - 1) 0
    let out := tpiuGetPacketLoop (t.rxedPacket.take (TPIU_PACKET_LEN - 1)) lowbits t.currentStream none
    (true, { t with currentStream := out.2 }, some { packet := out.1 })

/-- An interleaving step for the TPIU decoder: a `TPIUPump` call or an
`TPIUDecoderForceSync(t, 0)` call (orbmortem's usage), each at some
instant. -/
inductive TPIUOp
  | pump (d : Nat) (now : Nat)
  | forceSync (now : Nat)

/-- Apply one interleaved operation. -/
def applyTPIUOp (t : TPIUDecoder) : TPIUOp → TPIUDecoder
  | TPIUOp.pump d now => (TPIUPump t d now).1
  | TPIUOp.forceSync now => TPIUDecoderForceSync t 0 now

/-- Apply a whole interleaving, left to right. -/
def applyTPIUOps (t : TPIUDecoder) (ops : List TPIUOp) : TPIUDecoder :=
  ops.foldl applyTPIUOp t

/-! ## The post-mortem ring of orbmortem.c -/

/-- The ring state of `struct RunTime` that `_processBlock` touches:
`wp`, `rp`, `held` and the `pmBuffer` byte array (`options->buflen`
long). -/
structure PMRing where
  wp : Nat
  rp : Nat
  held : Bool
  pmBuffer : List Nat
deriving DecidableEq

/-- The raw-byte loop of `_processBlock` (orbmortem.c lines 379-401):
store at `wp`, advance; on write pointer meeting read pointer either set
`held` and `return` (single-shot: the rest of the block is abandoned) or
advance `rp` by one. -/
def pmPushBytes (buflen : Nat) (singleShot : Bool) : PMRing → List Nat → PMRing
  | r, [] => r
  | r, b :: rest =>
    let r1 : PMRing := { r with pmBuffer := r.pmBuffer.set r.wp (b % 256) }
    let nwp := (r1.wp + 1) % buflen
    if nwp = r1.rp then
      if singleShot then { r1 with held := true }
      else pmPushBytes buflen singleShot { r1 with rp := (r1.rp + 1) % buflen, wp := nwp } rest
    else pmPushBytes buflen singleShot { r1 with wp := nwp } rest

/-- `bytesAvailable` of `_dumpBuffer`:
`((r->wp + r->options->buflen) - r->rp) % r->options->buflen`. -/
def pmBytesAvailable (buflen : Nat) (r : PMRing) : Nat :=
  ((r.wp + buflen) - r.rp) % buflen

/-- The one or two contiguous slices `_dumpBuffer` submits to
`ETMDecoderPump` (wrapped: `pmBuffer[rp..buflen)` then `pmBuffer[0..wp)`;
else `pmBuffer[rp..rp+bytesAvailable)`). -/
def pmDumpSlices (buflen : Nat) (r : PMRing) : List (List Nat) :=
  let avail := pmBytesAvailable buflen r
  if avail + r.rp > buflen then
    [(r.pmBuffer.drop r.rp).take (buflen - r.rp), r.pmBuffer.take r.wp]
  else
    [(r.pmBuffer.drop r.rp).take avail]

/-- The ring contents oldest to newest, as `_dumpBuffer` would feed them. -/
def pmContents (buflen : Nat) (r : PMRing) : List Nat :=
  (pmDumpSlices buflen r).flatten

/-- The calls `_dumpBuffer` makes into the ETM decoder, in order: the
conditional `ETMDecoderForceSync(&r->i, false)` followed by the
`ETMDecoderPump` slice submissions. -/
inductive DumpAct
  | forceSync
  | pump (bytes : List Nat)
deriving DecidableEq

/-- `_dumpBuffer`'s decoder-facing action sequence (orbmortem.c lines
706-725). -/
def dumpActions (buflen : Nat) (singleShot : Bool) (r : PMRing) : List DumpAct :=
  let avail := pmBytesAvailable buflen r
  (if avail = buflen - 1 ∧ singleShot = false then [DumpAct.forceSync] else []) ++
    (pmDumpSlices buflen r).map DumpAct.pump

/-- An event of orbmortem's main loop as it affects the ring: a received
network block handed to `_processBlock` (only when not `held`), or the
user hold/release toggle (`SIO_EV_HOLD`): release resets `wp = rp = 0`. -/
inductive PMEvent
  | recv (block : List Nat)
  | holdToggle

/-- One main-loop step over the ring state (orbmortem.c lines 1186-1215). -/
def pmMainStep (buflen : Nat) (singleShot : Bool) (r : PMRing) : PMEvent → PMRing
  | PMEvent.recv block => if r.held then r else pmPushBytes buflen singleShot r block
  | PMEvent.holdToggle =>
    if r.held then { r with held := false, wp := 0, rp := 0 }
    else { r with held := true }

/-- The TCP port orbmortem's `main` puts into `serv_addr.sin_port`:
`_r.options->port + (_r.options->useTPIU ? 0 : 1)` (orbmortem.c line
1129). -/
def orbmortemConnectPort (port : Nat) (useTPIU : Bool) : Nat :=
  port + (if useTPIU then 0 else 1)

/-! ## A frame encoder for the round-trip property

The encoding the spec's round-trip posits: data bytes in even frame slots
have their LSB moved into bit `i/2` of the auxiliary byte `frame[15]`,
data bytes in odd slots are verbatim, and a stream change is an odd-LSB
byte `(id << 1) | 1` in an even slot, its auxiliary bit choosing
immediate (0) or delayed (1) application.  `encodePair` packs one
even/odd slot pair, consuming one or two items; `encodeFinalSlot` packs
the lone even slot 14.  `none` means the items do not fit a single
well-formed frame. -/
def encodePair (cur : Nat) :
    List TPIUPacketItem → Option (Nat × Nat × Nat × Nat × List TPIUPacketItem)
  | [] => none
  | i1 :: rest =>
    if i1.s ≠ cur then some (2 * i1.s + 1, 0, i1.d, i1.s, rest)
    else
      match rest with
      | [] => some (2 * cur + 1, 0, i1.d, cur, [])
      | i2 :: rest2 =>
        if i2.s = cur then some (2 * (i1.d / 2), i1.d % 2, i2.d, cur, rest2)
        else some (2 * i2.s + 1, 1, i1.d, i2.s, i2 :: rest2)

/-- Pack frame slot 14 (no odd partner): at most one item may remain and
its stream must already be current. -/
def encodeFinalSlot (cur : Nat) : List TPIUPacketItem → Option (Nat × Nat)
  | [] => some (2 * cur + 1, 0)
  | [i1] => if i1.s = cur then some (2 * (i1.d / 2), i1.d % 2) else none
  | _ => none

/-- Pack `n` even/odd pairs then the final slot; returns the `2n + 1`
payload bytes and the accumulated auxiliary bits (pair `k`'s bit at
position `k`). -/
def encodeSlots : Nat → Nat → List TPIUPacketItem → Option (List Nat × Nat)
  | 0, cur, items =>
    match encodeFinalSlot cur items with
    | none => none
    | some (b, bit) => some ([b], bit)
  | n + 1, cur, items =>
    match encodePair cur items with
    | none => none
    | some (e, bit, o, cur2, rest) =>
      match encodeSlots n cur2 rest with
      | none => none
      | some (bs, aux) => some (e :: o :: bs, bit + 2 * aux)

/-- A complete 16-byte frame for the item sequence, when one exists:
15 payload bytes from 7 pairs plus the final slot, then the auxiliary
byte. -/
def encodeFrame (cur : Nat) (items : List TPIUPacketItem) : Option (List Nat) :=
  match encodeSlots 7 cur items with
  | none => none
  | some (bs, aux) => some (bs ++ [aux])

/-- `rx` with `bs` written at consecutive indices from `i` (the effect of
the paired `rxedPacket` stores during frame fill). -/
def writeBytes (rx : List Nat) (i : Nat) (bs : List Nat) : List Nat :=
  match bs with
  | [] => rx
  | b :: rest => writeBytes (rx.set i b) (i + 1) rest

/-- The event sequence of an uninterrupted fill of `n` byte pairs ending a
frame: `evNone, evRxing` per pair, `evNone, evRxedPacket` for the last. -/
def fillEvents : Nat → List TPIUPumpEvent
  | 0 => []
  | 1 => [TPIUPumpEvent.evNone, TPIUPumpEvent.evRxedPacket]
  | n + 2 => TPIUPumpEvent.evNone :: TPIUPumpEvent.evRxing :: fillEvents (n + 1)

/-! ## Concrete instances for the boundary scenarios -/

/-- The boundary-scenario byte sequence `FF FF 7F FF 7F FF FF FF 7F`. -/
def halfSyncTrace : List Nat := [0xFF, 0xFF, 0x7F, 0xFF, 0x7F, 0xFF, 0xFF, 0xFF, 0x7F]

/-- An empty post-mortem ring with an 8-byte buffer. -/
def pmEmpty8 : PMRing := { wp := 0, rp := 0, held := false, pmBuffer := List.replicate 8 0 }

/-- A decoder freshly in `RXING` at a frame boundary, current stream `s0`. -/
def rxingDecoder (s0 : Nat) : TPIUDecoder :=
  { state := TPIUState.rxing
    byteCount := 0
    got_lowbits := false
    syncMonitor := 0
    lastPacket := 0
    currentStream := s0
    rxedPacket := List.replicate 16 0
    stats := { lostSync := 0, syncCount := 0, halfSyncCount := 0, error := 0, packets := 0 }
    commsStats := { pendingCount := 0, leds := 0, lostFrames := 0, totalFrames := 0 } }

/-- Fifteen data items on stream 2 used to witness the round trip. -/
def witItems : List TPIUPacketItem :=
  [⟨10, 2⟩, ⟨11, 2⟩, ⟨12, 2⟩, ⟨13, 2⟩, ⟨14, 2⟩, ⟨15, 2⟩, ⟨16, 2⟩, ⟨17, 2⟩,
    ⟨18, 2⟩, ⟨19, 2⟩, ⟨20, 2⟩, ⟨21, 2⟩, ⟨22, 2⟩, ⟨23, 2⟩, ⟨24, 2⟩]

/-- The frame `encodeFrame 2 witItems` produces. -/
def witFrame : List Nat := [10, 11, 12, 13, 14, 15, 16, 17, 18, 19, 20, 21, 22, 23, 24, 0]

/-- A decoder at a frame boundary with 14 bytes already collected and a pair
in progress, used to witness the frame-completion timing behaviour. -/
def c6T : TPIUDecoder :=
  { state := TPIUState.rxing
    byteCount := 14
    got_lowbits := true
    syncMonitor := 0
    lastPacket := 0
    currentStream := 0
    rxedPacket := List.replicate 16 0
    stats := { lostSync := 0, syncCount := 0, halfSyncCount := 0, error := 0, packets := 0 }
    commsStats := { pendingCount := 0, leds := 0, lostFrames := 0, totalFrames := 0 } }

/-- A held single-shot ring used to witness the hold property. -/
def heldRing : PMRing := { wp := 3, rp := 1, held := true, pmBuffer := [5, 6, 7, 8] }

/-- Thirteen items whose encoded frame starts `FE FF FF FF 7F`, so the
rolling register hits `0xFFFFFF7F` on the fifth byte and the decoder
resynchronises mid-frame. -/
def cexItems : List TPIUPacketItem :=
  [⟨254, 0⟩, ⟨255, 0⟩, ⟨255, 127⟩, ⟨0, 63⟩, ⟨0, 63⟩, ⟨0, 63⟩, ⟨0, 63⟩,
    ⟨0, 63⟩, ⟨0, 63⟩, ⟨0, 63⟩, ⟨0, 63⟩, ⟨0, 63⟩, ⟨0, 63⟩]

/-! ## Branch characterisations of `TPIUPump` while receiving a frame -/

/-- First byte of a pair in `RXING` (no sync pattern): the byte is stored at
`byteCount` and the low-bits latch is set. -/
theorem TPIUPump_first (t : TPIUDecoder) (dRaw now : Nat)
    (hst : t.state = TPIUState.rxing) (hlb : t.got_lowbits = false)
    (hsync : syncMonitorStep t.syncMonitor dRaw ≠ SYNCPATTERN) :
    TPIUPump t dRaw now =
      ({ t with
          syncMonitor := syncMonitorStep t.syncMonitor dRaw
          got_lowbits := true
          rxedPacket := t.rxedPacket.set t.byteCount (dRaw % 256) },
        TPIUPumpEvent.evNone) := by
  simp only [TPIUPump]
  rw [if_neg hsync, hst, hlb]
  rfl

/-- Second byte of a pair that is no half-sync and does not complete the
frame: both bytes advance `byteCount` by two. -/
theorem TPIUPump_second (t : TPIUDecoder) (dRaw now : Nat)
    (hst : t.state = TPIUState.rxing) (hlb : t.got_lowbits = true)
    (hsync : syncMonitorStep t.syncMonitor dRaw ≠ SYNCPATTERN)
    (hhalf : ¬(dRaw % 256 = HALFSYNC_HIGH ∧ t.rxedPacket.getD t.byteCount 0 = HALFSYNC_LOW))
    (hfull : t.byteCount + 2 ≠ TPIU_PACKET_LEN) :
    TPIUPump t dRaw now =
      ({ t with
          syncMonitor := syncMonitorStep t.syncMonitor dRaw
          got_lowbits := false
          rxedPacket := t.rxedPacket.set (t.byteCount + 1) (dRaw % 256)
          byteCount := t.byteCount + 2 },
        TPIUPumpEvent.evRxing) := by
  simp only [TPIUPump]
  rw [if_neg hsync, hst, hlb, if_neg (by simp), if_neg hhalf, if_pos hfull]

/-- Second byte of the final pair, arriving in time: the frame completes
with `evRxedPacket`, `byteCount` resets and `packets` increments. -/
theorem TPIUPump_complete (t : TPIUDecoder) (dRaw now : Nat)
    (hst : t.state = TPIUState.rxing) (hlb : t.got_lowbits = true)
    (hsync : syncMonitorStep t.syncMonitor dRaw ≠ SYNCPATTERN)
    (hhalf : ¬(dRaw % 256 = HALFSYNC_HIGH ∧ t.rxedPacket.getD t.byteCount 0 = HALFSYNC_LOW))
    (hbc : t.byteCount = 14)
    (htime : (now - t.lastPacket) / 1000000 < TIMEOUT) :
    TPIUPump t dRaw now =
      ({ t with
          syncMonitor := syncMonitorStep t.syncMonitor dRaw
          got_lowbits := false
          rxedPacket := t.rxedPacket.set 15 (dRaw % 256)
          byteCount := 0
          lastPacket := now
          stats := { t.stats with packets := t.stats.packets + 1 } },
        TPIUPumpEvent.evRxedPacket) := by
  simp only [TPIUPump]
  rw [if_neg hsync, hst, hlb, if_neg (by simp), if_neg hhalf, hbc,
    if_neg (by decide), if_pos htime]

/-- Second byte of the final pair, arriving 3 s or later after `lastPacket`:
the decoder falls back to `UNSYNCED` with `evUnsynced` and `lostSync`
incremented. -/
theorem TPIUPump_stale (t : TPIUDecoder) (dRaw now : Nat)
    (hst : t.state = TPIUState.rxing) (hlb : t.got_lowbits = true)
    (hsync : syncMonitorStep t.syncMonitor dRaw ≠ SYNCPATTERN)
    (hhalf : ¬(dRaw % 256 = HALFSYNC_HIGH ∧ t.rxedPacket.getD t.byteCount 0 = HALFSYNC_LOW))
    (hbc : t.byteCount = 14)
    (htime : TIMEOUT ≤ (now - t.lastPacket) / 1000000) :
    TPIUPump t dRaw now =
      ({ t with
          syncMonitor := syncMonitorStep t.syncMonitor dRaw
          got_lowbits := false
          rxedPacket := t.rxedPacket.set 15 (dRaw % 256)
          byteCount := 0
          lastPacket := now
          state := TPIUState.unsynced
          stats := { t.stats with lostSync := t.stats.lostSync + 1 } },
        TPIUPumpEvent.evUnsynced) := by
  simp only [TPIUPump]
  rw [if_neg hsync, hst, hlb, if_neg (by simp), if_neg hhalf, hbc,
    if_neg (by decide), if_neg (by simp [TIMEOUT] at htime ⊢; omega)]

/-! ## Correctness of the frame encoder against `tpiuGetPacketLoop` -/

set_option maxRecDepth 8192 in
/-- Bitwise-or on an even byte with a bit is addition (checked over the
byte range). -/
theorem lor_bit_eq_add : ∀ e, e < 256 → e % 2 = 0 → ∀ b, b < 2 → e ||| b = e + b := by
  decide

/-- `encodeSlots n` always produces `2n + 1` payload bytes. -/
theorem encodeSlots_length :
    ∀ (n cur : Nat) (items : List TPIUPacketItem) (bs : List Nat) (aux : Nat),
      encodeSlots n cur items = some (bs, aux) → bs.length = 2 * n + 1 := by
  intro n
  induction n with
  | zero =>
    intro cur items bs aux henc
    simp only [encodeSlots] at henc
    cases hfs : encodeFinalSlot cur items with
    | none => rw [hfs] at henc; simp at henc
    | some v =>
      obtain ⟨b, bit⟩ := v
      rw [hfs] at henc
      simp only [Option.some.injEq, Prod.mk.injEq] at henc
      obtain ⟨hbs, -⟩ := henc
      subst hbs
      rfl
  | succ n ih =>
    intro cur items bs aux henc
    simp only [encodeSlots] at henc
    cases hp : encodePair cur items with
    | none => rw [hp] at henc; simp at henc
    | some v =>
      obtain ⟨e, bit, o, cur2, rest⟩ := v
      rw [hp] at henc
      dsimp only at henc
      cases hrec : encodeSlots n cur2 rest with
      | none => rw [hrec] at henc; simp at henc
      | some w =>
        obtain ⟨bs2, aux2⟩ := w
        rw [hrec] at henc
        simp only [Option.some.injEq, Prod.mk.injEq] at henc
        obtain ⟨hbs, -⟩ := henc
        subst hbs
        have hl := ih cur2 rest bs2 aux2 hrec
        simp only [List.length_cons, hl]
        omega

/-- The encoder is sound: its payload bytes are in byte range, its
auxiliary bits fit the pair count, and `tpiuGetPacketLoop` (the
`TPIUGetPacket` loop) decodes the slots back to exactly the encoded
items. -/
theorem encodeSlots_spec :
    ∀ (n cur : Nat) (items : List TPIUPacketItem) (bs : List Nat) (aux : Nat),
      cur < 128 → (∀ i ∈ items, i.d < 256 ∧ i.s < 128) →
      encodeSlots n cur items = some (bs, aux) →
      (∀ b ∈ bs, b < 256) ∧ aux < 2 ^ (n + 1) ∧
        ∃ curF, tpiuGetPacketLoop bs aux cur none = (items, curF) := by
  intro n
  induction n with
  | zero =>
    intro cur items bs aux hcur hwf henc
    simp only [encodeSlots] at henc
    cases items with
    | nil =>
      simp only [encodeFinalSlot] at henc
      simp only [Option.some.injEq, Prod.mk.injEq] at henc
      obtain ⟨hbs, haux⟩ := henc
      subst hbs
      subst haux
      refine ⟨?_, by omega, cur, ?_⟩
      · intro b hb
        simp at hb
        omega
      · have h1 : (2 * cur + 1) % 2 = 1 := by omega
        have h3 : (2 * cur + 1) / 2 = cur := by omega
        simp [tpiuGetPacketLoop, h1, h3]
    | cons i1 rest =>
      obtain ⟨d1, s1⟩ := i1
      cases rest with
      | nil =>
        simp only [encodeFinalSlot] at henc
        by_cases hs1 : s1 = cur
        · subst hs1
          rw [if_pos rfl] at henc
          simp only [Option.some.injEq, Prod.mk.injEq] at henc
          obtain ⟨hbs, haux⟩ := henc
          subst hbs
          subst haux
          have hd1 : d1 < 256 := (hwf ⟨d1, s1⟩ (by simp)).1
          refine ⟨?_, by omega, s1, ?_⟩
          · intro b hb
            simp at hb
            omega
          · have h1 : (2 * (d1 / 2)) % 2 = 0 := by omega
            have h5 : (d1 % 2) % 2 = d1 % 2 := by omega
            have h6 : 2 * (d1 / 2) ||| d1 % 2 = d1 := by
              rw [lor_bit_eq_add (2 * (d1 / 2)) (by omega) (by omega) (d1 % 2) (by omega)]
              omega
            simp only [tpiuGetPacketLoop, h1, h5, h6]
            simp
        · rw [if_neg hs1] at henc
          simp at henc
      | cons i2 rest2 =>
        simp only [encodeFinalSlot] at henc
        simp at henc
  | succ n ih =>
    intro cur items bs aux hcur hwf henc
    simp only [encodeSlots] at henc
    cases items with
    | nil => simp [encodePair] at henc
    | cons i1 rest =>
      obtain ⟨d1, s1⟩ := i1
      have hd1 : d1 < 256 := (hwf ⟨d1, s1⟩ (by simp)).1
      have hs1lt : s1 < 128 := (hwf ⟨d1, s1⟩ (by simp)).2
      simp only [encodePair] at henc
      by_cases hs1 : s1 = cur
      · subst hs1
        rw [if_neg (by simp)] at henc
        cases rest with
        | nil =>
          dsimp only at henc
          cases hrec : encodeSlots n s1 [] with
          | none => rw [hrec] at henc; simp at henc
          | some w =>
            obtain ⟨bs2, aux2⟩ := w
            rw [hrec] at henc
            simp only [Option.some.injEq, Prod.mk.injEq] at henc
            obtain ⟨hbs, haux⟩ := henc
            subst hbs
            subst haux
            obtain ⟨hb2, ha2, curF, hIH⟩ :=
              ih s1 [] bs2 aux2 hcur (by simp) hrec
            refine ⟨?_, by omega, curF, ?_⟩
            · intro b hb
              simp only [List.mem_cons] at hb
              rcases hb with hb | hb | hb
              · omega
              · omega
              · exact hb2 b hb
            · have h1 : (2 * s1 + 1) % 2 = 1 := by omega
              have h2 : (0 + 2 * aux2) % 2 = 0 := by omega
              have h3 : (2 * s1 + 1) / 2 = s1 := by omega
              have h4 : (0 + 2 * aux2) / 2 = aux2 := by omega
              simp only [tpiuGetPacketLoop, h1, h2, h3, h4, hIH]
              simp [hIH]
        | cons i2 rest2 =>
          obtain ⟨d2, s2⟩ := i2
          have hd2 : d2 < 256 := (hwf ⟨d2, s2⟩ (by simp)).1
          have hs2lt : s2 < 128 := (hwf ⟨d2, s2⟩ (by simp)).2
          dsimp only at henc
          by_cases hs2 : s2 = s1
          · subst hs2
            rw [if_pos rfl] at henc
            dsimp only at henc
            cases hrec : encodeSlots n s2 rest2 with
            | none => rw [hrec] at henc; simp at henc
            | some w =>
              obtain ⟨bs2, aux2⟩ := w
              rw [hrec] at henc
              simp only [Option.some.injEq, Prod.mk.injEq] at henc
              obtain ⟨hbs, haux⟩ := henc
              subst hbs
              subst haux
              obtain ⟨hb2, ha2, curF, hIH⟩ :=
                ih s2 rest2 bs2 aux2 hcur
                  (fun i hi => hwf i (by simp [hi])) hrec
              refine ⟨?_, by omega, curF, ?_⟩
              · intro b hb
                simp only [List.mem_cons] at hb
                rcases hb with hb | hb | hb
                · omega
                · omega
                · exact hb2 b hb
              · have h1 : (2 * (d1 / 2)) % 2 = 0 := by omega
                have h5 : (d1 % 2 + 2 * aux2) % 2 = d1 % 2 := by omega
                have h6 : 2 * (d1 / 2) ||| (d1 % 2 + 2 * aux2) % 2 = d1 := by
                  rw [h5,
                    lor_bit_eq_add (2 * (d1 / 2)) (by omega) (by omega) (d1 % 2) (by omega)]
                  omega
                have h4 : (d1 % 2 + 2 * aux2) / 2 = aux2 := by omega
                have h1f : ¬((2 * (d1 / 2)) % 2 = 1) := by omega
                simp only [tpiuGetPacketLoop, if_neg h1f, h6, h4, hIH]
                simp [hIH]
          · rw [if_neg hs2] at henc
            dsimp only at henc
            cases hrec : encodeSlots n s2 (⟨d2, s2⟩ :: rest2) with
            | none => rw [hrec] at henc; simp at henc
            | some w =>
              obtain ⟨bs2, aux2⟩ := w
              rw [hrec] at henc
              simp only [Option.some.injEq, Prod.mk.injEq] at henc
              obtain ⟨hbs, haux⟩ := henc
              subst hbs
              subst haux
              obtain ⟨hb2, ha2, curF, hIH⟩ :=
                ih s2 (⟨d2, s2⟩ :: rest2) bs2 aux2 hs2lt
                  (fun i hi => hwf i (by simp [List.mem_cons] at hi ⊢; tauto)) hrec
              refine ⟨?_, by omega, curF, ?_⟩
              · intro b hb
                simp only [List.mem_cons] at hb
                rcases hb with hb | hb | hb
                · omega
                · omega
                · exact hb2 b hb
              · have h1 : (2 * s2 + 1) % 2 = 1 := by omega
                have h2 : (1 + 2 * aux2) % 2 = 1 := by omega
                have h3 : (2 * s2 + 1) / 2 = s2 := by omega
                have h4 : (1 + 2 * aux2) / 2 = aux2 := by omega
                simp only [tpiuGetPacketLoop, h1, h2, h3, h4, hIH]
                simp [hIH]
      · rw [if_pos hs1] at henc
        dsimp only at henc
        cases hrec : encodeSlots n s1 rest with
        | none => rw [hrec] at henc; simp at henc
        | some w =>
          obtain ⟨bs2, aux2⟩ := w
          rw [hrec] at henc
          simp only [Option.some.injEq, Prod.mk.injEq] at henc
          obtain ⟨hbs, haux⟩ := henc
          subst hbs
          subst haux
          obtain ⟨hb2, ha2, curF, hIH⟩ :=
            ih s1 rest bs2 aux2 hs1lt
              (fun i hi => hwf i (by simp [hi])) hrec
          refine ⟨?_, by omega, curF, ?_⟩
          · intro b hb
            simp only [List.mem_cons] at hb
            rcases hb with hb | hb | hb
            · omega
            · omega
            · exact hb2 b hb
          · have h1 : (2 * s1 + 1) % 2 = 1 := by omega
            have h2 : (0 + 2 * aux2) % 2 = 0 := by omega
            have h3 : (2 * s1 + 1) / 2 = s1 := by omega
            have h4 : (0 + 2 * aux2) / 2 = aux2 := by omega
            simp only [tpiuGetPacketLoop, h1, h2, h3, h4, hIH]
            simp [hIH]

/-- Pumping an even, clean (no sync pattern in the rolling register, no
aligned half-sync pair, in time) byte run that exactly finishes a frame
writes the bytes into the scratch in order and ends with
`evRxedPacket`. -/
theorem TPIUPumpList_fill :
    ∀ (fuel : Nat) (bytes : List Nat) (t : TPIUDecoder) (now : Nat),
      bytes.length ≤ 2 * fuel →
      t.state = TPIUState.rxing → t.got_lowbits = false →
      t.rxedPacket.length = 16 →
      t.byteCount + bytes.length = 16 →
      bytes.length % 2 = 0 → bytes ≠ [] →
      (∀ b ∈ bytes, b < 256) →
      (∀ k, k < bytes.length → syncMonitorRoll t.syncMonitor (bytes.take (k + 1)) ≠ SYNCPATTERN) →
      (∀ j, 2 * j + 1 < bytes.length →
        ¬(bytes.getD (2 * j) 0 = 255 ∧ bytes.getD (2 * j + 1) 0 = 127)) →
      (now - t.lastPacket) / 1000000 < TIMEOUT →
      TPIUPumpList t bytes now =
        ({ t with
            rxedPacket := writeBytes t.rxedPacket t.byteCount bytes
            byteCount := 0
            got_lowbits := false
            syncMonitor := syncMonitorRoll t.syncMonitor bytes
            lastPacket := now
            stats := { t.stats with packets := t.stats.packets + 1 } },
          fillEvents (bytes.length / 2)) := by
  intro fuel
  induction fuel with
  | zero =>
    intro bytes t now hlen _ _ _ _ _ hne _ _ _ _
    cases bytes with
    | nil => exact absurd rfl hne
    | cons x tail => simp at hlen
  | succ fuel ih =>
    intro bytes t now hlen hst hlb hrxlen hbc heven hne hbound hsync hhalf htime
    cases bytes with
    | nil => exact absurd rfl hne
    | cons x tail =>
      cases tail with
      | nil => simp at heven
      | cons y rest =>
        have hx : x < 256 := hbound x (by simp)
        have hy : y < 256 := hbound y (by simp)
        have hbclt : t.byteCount < 15 := by
          simp only [List.length_cons] at hbc
          omega
        have hs1 : syncMonitorStep t.syncMonitor x ≠ SYNCPATTERN := by
          have h := hsync 0 (by simp)
          simpa [syncMonitorRoll] using h
        have hs2 : syncMonitorStep (syncMonitorStep t.syncMonitor x) y ≠ SYNCPATTERN := by
          have h := hsync 1 (by simp)
          simpa [syncMonitorRoll] using h
        have hp1 := TPIUPump_first t x now hst hlb hs1
        have hget : (t.rxedPacket.set t.byteCount (x % 256)).getD t.byteCount 0 = x := by
          rw [List.getD_eq_getElem?_getD,
            List.getElem?_set_eq_of_lt _ (by omega : t.byteCount < t.rxedPacket.length)]
          simp [Nat.mod_eq_of_lt hx]
        have hhalf0 := hhalf 0 (by simp)
        simp only [List.getD_cons_zero, List.getD_cons_succ] at hhalf0
        have hhalfp : ¬(y % 256 = HALFSYNC_HIGH ∧
            (t.rxedPacket.set t.byteCount (x % 256)).getD t.byteCount 0 = HALFSYNC_LOW) := by
          rw [hget, Nat.mod_eq_of_lt hy]
          simp only [HALFSYNC_HIGH, HALFSYNC_LOW]
          tauto
        by_cases hrest : rest = []
        · subst hrest
          have hbc14 : t.byteCount = 14 := by
            simp only [List.length_cons, List.length_nil] at hbc
            omega
          have hp2 := TPIUPump_complete
            { t with
                syncMonitor := syncMonitorStep t.syncMonitor x
                got_lowbits := true
                rxedPacket := t.rxedPacket.set t.byteCount (x % 256) }
            y now hst rfl hs2 hhalfp hbc14 htime
          simp only [TPIUPumpList, hp1]
          rw [hp2]
          rw [Nat.mod_eq_of_lt hx, Nat.mod_eq_of_lt hy, hbc14]
          simp only [writeBytes, syncMonitorRoll, List.foldl_cons, List.foldl_nil,
            List.length_cons, List.length_nil, fillEvents]
        · have hrlen : 2 ≤ rest.length := by
            simp only [List.length_cons] at heven
            cases rest with
            | nil => exact absurd rfl hrest
            | cons a b =>
              simp only [List.length_cons] at heven ⊢
              omega
          have hfull : t.byteCount + 2 ≠ TPIU_PACKET_LEN := by
            simp only [List.length_cons] at hbc
            simp only [TPIU_PACKET_LEN]
            omega
          have hp2 := TPIUPump_second
            { t with
                syncMonitor := syncMonitorStep t.syncMonitor x
                got_lowbits := true
                rxedPacket := t.rxedPacket.set t.byteCount (x % 256) }
            y now hst rfl hs2 hhalfp hfull
          have hihres := ih rest
            { t with
                syncMonitor := syncMonitorStep (syncMonitorStep t.syncMonitor x) y
                got_lowbits := false
                rxedPacket := (t.rxedPacket.set t.byteCount (x % 256)).set (t.byteCount + 1) (y % 256)
                byteCount := t.byteCount + 2 }
            now
            (by simp only [List.length_cons] at hlen; omega)
            hst rfl
            (by simp [List.length_set, hrxlen])
            (by simp only [List.length_cons] at hbc; dsimp only; omega)
            (by simp only [List.length_cons] at heven; omega)
            hrest
            (fun b hb => hbound b (by simp [hb]))
            (by
              intro k hk
              have h := hsync (k + 2) (by simp only [List.length_cons] at *; omega)
              simp only [List.take_succ_cons, syncMonitorRoll, List.foldl_cons] at h ⊢
              exact h)
            (by
              intro j hj
              have h := hhalf (j + 1) (by simp only [List.length_cons] at *; omega)
              have e1 : 2 * (j + 1) = 2 * j + 1 + 1 := by omega
              rw [e1] at h
              simp only [List.getD_cons_succ] at h
              exact h)
            htime
          simp only [TPIUPumpList, hp1]
          rw [hp2]
          rw [hihres]
          have hm : ∃ m, rest.length / 2 = m + 1 := ⟨rest.length / 2 - 1, by omega⟩
          obtain ⟨m, hm⟩ := hm
          have hlenq : (x :: y :: rest).length / 2 = m + 2 := by
            simp only [List.length_cons]
            omega
          rw [hlenq, hm, fillEvents]
          rw [Nat.mod_eq_of_lt hx, Nat.mod_eq_of_lt hy]
          rfl

/-- Writing a byte run that exactly fills the tail of a buffer replaces
that tail. -/
theorem writeBytes_all : ∀ (bs rx : List Nat) (i : Nat),
    i + bs.length = rx.length → writeBytes rx i bs = rx.take i ++ bs := by
  intro bs
  induction bs with
  | nil =>
    intro rx i h
    simp only [writeBytes, List.append_nil]
    rw [show i = rx.length by simpa using h, List.take_length]
  | cons b rest ih =>
    intro rx i h
    have hi : i < rx.length := by simp at h; omega
    simp only [writeBytes]
    rw [ih (rx.set i b) (i + 1) (by simp at h ⊢; omega)]
    rw [List.set_eq_take_append_cons_drop, if_pos hi]
    rw [List.take_append_eq_append_take]
    have h1 : (rx.take i).length = i := by
      simp [List.length_take, Nat.min_eq_left (Nat.le_of_lt hi)]
    rw [h1]
    have h2 : (rx.take i).take (i + 1) = rx.take i := by
      apply List.take_of_length_le
      omega
    rw [h2]
    have h3 : i + 1 - i = 1 := by omega
    rw [h3]
    simp

/-- `byteCount` parity and bound are preserved by one `TPIUPump` call. -/
theorem tpiu_pump_byteCount_inv (t : TPIUDecoder) (d now : Nat)
    (h2 : t.byteCount % 2 = 0) (h14 : t.byteCount ≤ 14) :
    (TPIUPump t d now).1.byteCount % 2 = 0 ∧ (TPIUPump t d now).1.byteCount ≤ 14 := by
  simp only [TPIUPump]
  split
  · dsimp only
    omega
  · split
    · dsimp only
      omega
    · split
      · dsimp only
        omega
      · split
        · dsimp only
          omega
        · split
          · next hne =>
            dsimp only at hne ⊢
            simp only [TPIU_PACKET_LEN] at hne
            omega
          · split
            · dsimp only
              omega
            · dsimp only
              omega

/-- `TPIUDecoderForceSync` with offset 0 zeroes `byteCount`. -/
theorem tpiu_forcesync_byteCount (t : TPIUDecoder) (now : Nat) :
    (TPIUDecoderForceSync t 0 now).byteCount = 0 := by
  simp [TPIUDecoderForceSync]

/-! ## The claims -/

/-- Claim C1 (corrected; counterexample): the round trip as stated fails:
these thirteen `(stream, data)` items encode into a well-formed frame, but
the frame's bytes `FE FF FF FF 7F` complete the sync pattern in the rolling
register, so the decoder resynchronises mid-frame and `TPIUGetPacket` does
not return the items. -/
theorem tpiu_roundtrip_cex :
    (encodeFrame 0 cexItems).isSome = true ∧
    (TPIUGetPacket
        (TPIUPumpList (rxingDecoder 0) ((encodeFrame 0 cexItems).getD []) 0).1
        (some { packet := [] })).2.2 ≠ some { packet := cexItems } := by
  decide

/-- Claim C1 (corrected): for every item sequence the encoder fits into one
well-formed 16-byte frame, if feeding that frame never completes the sync
pattern in the decoder's rolling register and no aligned byte pair is the
half-sync `FF 7F`, then pumping the frame through `TPIUPump` in `RXING`
state at a frame boundary ends with `evRxedPacket` and `TPIUGetPacket`
returns exactly the original items, in order. -/
theorem tpiu_roundtrip (items : List TPIUPacketItem) (t : TPIUDecoder) (now : Nat)
    (frame : List Nat)
    (henc : encodeFrame t.currentStream items = some frame)
    (hwf : ∀ i ∈ items, i.d < 256 ∧ i.s < 128)
    (hcur : t.currentStream < 128)
    (hst : t.state = TPIUState.rxing) (hbc : t.byteCount = 0) (hlb : t.got_lowbits = false)
    (hrxlen : t.rxedPacket.length = 16)
    (hsync : ∀ k, k < 16 → syncMonitorRoll t.syncMonitor (frame.take (k + 1)) ≠ SYNCPATTERN)
    (hhalf : ∀ j, j < 8 → ¬(frame.getD (2 * j) 0 = 255 ∧ frame.getD (2 * j + 1) 0 = 127))
    (htime : (now - t.lastPacket) / 1000000 < TIMEOUT) :
    (TPIUPumpList t frame now).2.getLast? = some TPIUPumpEvent.evRxedPacket ∧
    (TPIUGetPacket (TPIUPumpList t frame now).1 (some { packet := [] })).2.2 =
      some { packet := items } := by
  simp only [encodeFrame] at henc
  cases hslots : encodeSlots 7 t.currentStream items with
  | none => rw [hslots] at henc; simp at henc
  | some w =>
    obtain ⟨bs, aux⟩ := w
    rw [hslots] at henc
    simp only [Option.some.injEq] at henc
    have hlen15 : bs.length = 15 := encodeSlots_length 7 t.currentStream items bs aux hslots
    obtain ⟨hbbound, hauxlt, curF, hdec⟩ :=
      encodeSlots_spec 7 t.currentStream items bs aux hcur hwf hslots
    have hflen : frame.length = 16 := by
      rw [← henc]
      simp [hlen15]
    have hfbound : ∀ b ∈ frame, b < 256 := by
      intro b hb
      rw [← henc] at hb
      rcases List.mem_append.mp hb with hb | hb
      · exact hbbound b hb
      · have haux256 : aux < 256 := by
          have h8 := hauxlt
          norm_num at h8
          exact h8
        simp at hb
        omega
    have hfill := TPIUPumpList_fill 8 frame t now
      (by omega)
      hst hlb hrxlen
      (by omega)
      (by omega)
      (by intro hcon; rw [hcon] at hflen; simp at hflen)
      hfbound
      (by intro k hk; exact hsync k (by omega))
      (by intro j hj; exact hhalf j (by omega))
      htime
    rw [hfill]
    constructor
    · rw [hflen]
      dsimp only
      decide
    · have hwrite : writeBytes t.rxedPacket t.byteCount frame = frame := by
        rw [hbc, writeBytes_all frame t.rxedPacket 0 (by omega)]
        simp
      simp only [TPIUGetPacket]
      rw [if_neg (by simp)]
      dsimp only
      rw [hwrite, ← henc]
      have hlow : (bs ++ [aux]).getD (TPIU_PACKET_LEN - 1) 0 = aux := by
        simp only [TPIU_PACKET_LEN]
        rw [List.getD_eq_getElem?_getD,
          List.getElem?_append_right (by omega : bs.length ≤ 15)]
        simp [hlen15]
      have htake : (bs ++ [aux]).take (TPIU_PACKET_LEN - 1) = bs := by
        simp only [TPIU_PACKET_LEN]
        exact List.take_left' hlen15
      rw [hlow, htake, hdec]

/-- Claim C1 (witness): the round trip at fifteen concrete stream-2 items. -/
theorem tpiu_roundtrip_witness :
    (TPIUPumpList (rxingDecoder 2) witFrame 0).2.getLast? = some TPIUPumpEvent.evRxedPacket ∧
    (TPIUGetPacket (TPIUPumpList (rxingDecoder 2) witFrame 0).1
        (some { packet := [] })).2.2 = some { packet := witItems } :=
  tpiu_roundtrip witItems (rxingDecoder 2) 0 witFrame (by decide) (by decide) (by decide)
    (by decide) (by decide) (by decide) (by decide) (by decide) (by decide) (by decide)

/-- Claim C2 (corrected; counterexample): with `buflen = 8`, pushing the ten
bytes `00..09` into an empty running-mode ring does not leave contents
`02..09` — the ring stores at most `buflen - 1 = 7` bytes. -/
theorem pm_running_wrap_cex :
    ¬(pmContents 8 (pmPushBytes 8 false pmEmpty8 [0, 1, 2, 3, 4, 5, 6, 7, 8, 9]) =
      [2, 3, 4, 5, 6, 7, 8, 9]) := by
  decide

/-- Claim C2 (corrected): with `buflen = 8` in running mode, pushing
`00..09` into an empty ring leaves contents (oldest to newest, as
`_dumpBuffer` reads them) `03 04 05 06 07 08 09`, and `held` stays
false. -/
theorem pm_running_wrap :
    pmContents 8 (pmPushBytes 8 false pmEmpty8 [0, 1, 2, 3, 4, 5, 6, 7, 8, 9]) =
      [3, 4, 5, 6, 7, 8, 9] ∧
    (pmPushBytes 8 false pmEmpty8 [0, 1, 2, 3, 4, 5, 6, 7, 8, 9]).held = false := by
  decide

/-- Claim C3 (corrected; counterexample): after feeding
`FF FF 7F FF 7F FF FF FF 7F` to a freshly initialised decoder,
`halfSyncCount` is not 1. -/
theorem tpiu_halfsync_scenario_cex :
    ¬((TPIUPumpList (TPIUDecoderInit zeroedTPIUDecoder) halfSyncTrace 0).1.stats.halfSyncCount = 1) := by
  decide

/-- Claim C3 (corrected): feeding `FF FF 7F FF 7F FF FF FF 7F` to a freshly
initialised decoder makes it enter `RXING` and emit `evNewSync` exactly
once, with `halfSyncCount = 0`: every byte before the sync pattern
completes is consumed in `UNSYNCED`, where half-syncs are not counted. -/
theorem tpiu_halfsync_scenario :
    (TPIUPumpList (TPIUDecoderInit zeroedTPIUDecoder) halfSyncTrace 0).1.state = TPIUState.rxing ∧
    (TPIUPumpList (TPIUDecoderInit zeroedTPIUDecoder) halfSyncTrace 0).2.count
      TPIUPumpEvent.evNewSync = 1 ∧
    (TPIUPumpList (TPIUDecoderInit zeroedTPIUDecoder) halfSyncTrace 0).1.stats.halfSyncCount = 0 := by
  decide

/-- Claim C4: in single-shot mode, once `held` is true every received block
leaves the ring (buffer, `rp`, `wp`, `held`) completely unchanged, for every
block sequence, and the hold toggle then releases the ring by resetting
`rp = wp = 0` and clearing `held`. -/
theorem pm_singleshot_hold (buflen : Nat) (r : PMRing) (blocks : List (List Nat))
    (h : r.held = true) :
    (blocks.map PMEvent.recv).foldl (pmMainStep buflen true) r = r ∧
    pmMainStep buflen true r PMEvent.holdToggle = { r with held := false, wp := 0, rp := 0 } := by
  constructor
  · induction blocks with
    | nil => rfl
    | cons b bs ih =>
      have hstep : pmMainStep buflen true r (PMEvent.recv b) = r := by
        simp [pmMainStep, h]
      simp only [List.map_cons, List.foldl_cons, hstep]
      exact ih
  · simp [pmMainStep, h]

/-- Claim C4 (witness): the hold property at a concrete held ring and two
blocks. -/
theorem pm_singleshot_hold_witness :
    ([[1], [2, 3]].map PMEvent.recv).foldl (pmMainStep 4 true) heldRing = heldRing ∧
    pmMainStep 4 true heldRing PMEvent.holdToggle =
      { heldRing with held := false, wp := 0, rp := 0 } :=
  pm_singleshot_hold 4 heldRing [[1], [2, 3]] rfl

/-- Claim C5 (corrected; counterexample): with `buflen = 8` in single-shot
mode, `held` is already true after the 8th byte — it does not first become
true upon the 9th. -/
theorem pm_singleshot_wrap_cex :
    (pmPushBytes 8 true pmEmpty8 [0, 1, 2, 3, 4, 5, 6, 7]).held = true := by
  decide

/-- Claim C5 (corrected): with `buflen = 8` in single-shot mode, `held`
becomes true upon the 8th byte (false after 7), the 8th and 9th bytes are
dropped (contents stay `00..06`), and after a release pushing 2 bytes gives
`rp = 0` and `wp = 2`. -/
theorem pm_singleshot_wrap :
    (pmPushBytes 8 true pmEmpty8 [0, 1, 2, 3, 4, 5, 6]).held = false ∧
    (pmPushBytes 8 true pmEmpty8 [0, 1, 2, 3, 4, 5, 6, 7]).held = true ∧
    pmPushBytes 8 true pmEmpty8 [0, 1, 2, 3, 4, 5, 6, 7, 8] =
      pmPushBytes 8 true pmEmpty8 [0, 1, 2, 3, 4, 5, 6, 7] ∧
    pmContents 8 (pmPushBytes 8 true pmEmpty8 [0, 1, 2, 3, 4, 5, 6, 7, 8]) =
      [0, 1, 2, 3, 4, 5, 6] ∧
    (pmPushBytes 8 true
        (pmMainStep 8 true (pmPushBytes 8 true pmEmpty8 [0, 1, 2, 3, 4, 5, 6, 7, 8])
          PMEvent.holdToggle) [10, 11]).rp = 0 ∧
    (pmPushBytes 8 true
        (pmMainStep 8 true (pmPushBytes 8 true pmEmpty8 [0, 1, 2, 3, 4, 5, 6, 7, 8])
          PMEvent.holdToggle) [10, 11]).wp = 2 := by
  decide

/-- Claim C6: when the 16th frame byte arrives in `RXING`, a gap of at
least 3 s since `lastPacket` sends the decoder to `UNSYNCED` with
`evUnsynced`, `lostSync` incremented, `packets` untouched; otherwise it
stays in `RXING` with `evRxedPacket` and `packets` incremented; in both
cases `byteCount` resets to 0. -/
theorem tpiu_frame_timeout (t : TPIUDecoder) (d now : Nat)
    (hst : t.state = TPIUState.rxing) (hlb : t.got_lowbits = true)
    (hbc : t.byteCount = 14)
    (hsync : syncMonitorStep t.syncMonitor d ≠ SYNCPATTERN)
    (hhalf : ¬(d % 256 = HALFSYNC_HIGH ∧ t.rxedPacket.getD t.byteCount 0 = HALFSYNC_LOW)) :
    (TIMEOUT ≤ (now - t.lastPacket) / 1000000 →
      (TPIUPump t d now).2 = TPIUPumpEvent.evUnsynced ∧
      (TPIUPump t d now).1.state = TPIUState.unsynced ∧
      (TPIUPump t d now).1.stats.lostSync = t.stats.lostSync + 1 ∧
      (TPIUPump t d now).1.stats.packets = t.stats.packets ∧
      (TPIUPump t d now).1.byteCount = 0) ∧
    ((now - t.lastPacket) / 1000000 < TIMEOUT →
      (TPIUPump t d now).2 = TPIUPumpEvent.evRxedPacket ∧
      (TPIUPump t d now).1.state = TPIUState.rxing ∧
      (TPIUPump t d now).1.stats.packets = t.stats.packets + 1 ∧
      (TPIUPump t d now).1.stats.lostSync = t.stats.lostSync ∧
      (TPIUPump t d now).1.byteCount = 0) := by
  constructor
  · intro htime
    rw [TPIUPump_stale t d now hst hlb hsync hhalf hbc htime]
    exact ⟨rfl, rfl, rfl, rfl, rfl⟩
  · intro htime
    rw [TPIUPump_complete t d now hst hlb hsync hhalf hbc htime]
    exact ⟨rfl, hst, rfl, rfl, rfl⟩

/-- Claim C6 (witness): the stale branch fires at a 3 s gap on a concrete
decoder. -/
theorem tpiu_frame_timeout_witness :
    (TIMEOUT ≤ (3000000 - c6T.lastPacket) / 1000000 →
      (TPIUPump c6T 4 3000000).2 = TPIUPumpEvent.evUnsynced ∧
      (TPIUPump c6T 4 3000000).1.state = TPIUState.unsynced ∧
      (TPIUPump c6T 4 3000000).1.stats.lostSync = c6T.stats.lostSync + 1 ∧
      (TPIUPump c6T 4 3000000).1.stats.packets = c6T.stats.packets ∧
      (TPIUPump c6T 4 3000000).1.byteCount = 0) ∧
    ((3000000 - c6T.lastPacket) / 1000000 < TIMEOUT →
      (TPIUPump c6T 4 3000000).2 = TPIUPumpEvent.evRxedPacket ∧
      (TPIUPump c6T 4 3000000).1.state = TPIUState.rxing ∧
      (TPIUPump c6T 4 3000000).1.stats.packets = c6T.stats.packets + 1 ∧
      (TPIUPump c6T 4 3000000).1.stats.lostSync = c6T.stats.lostSync ∧
      (TPIUPump c6T 4 3000000).1.byteCount = 0) :=
  tpiu_frame_timeout c6T 4 3000000 (by decide) (by decide) (by decide) (by decide) (by decide)

/-- Claim C7: `_dumpBuffer` forces the ETM decoder out of sync exactly when
the ring is in running mode and the available bytes equal `buflen - 1`
(wrapped-full), and when it does, the `ETMDecoderForceSync` call comes
before any `ETMDecoderPump` slice submission. -/
theorem dump_forcesync_iff (buflen : Nat) (singleShot : Bool) (r : PMRing) :
    (DumpAct.forceSync ∈ dumpActions buflen singleShot r ↔
      singleShot = false ∧ pmBytesAvailable buflen r = buflen - 1) ∧
    (DumpAct.forceSync ∈ dumpActions buflen singleShot r →
      (dumpActions buflen singleShot r).head? = some DumpAct.forceSync) := by
  by_cases hc : pmBytesAvailable buflen r = buflen - 1 ∧ singleShot = false
  · have heq : dumpActions buflen singleShot r =
        [DumpAct.forceSync] ++ (pmDumpSlices buflen r).map DumpAct.pump := by
      simp only [dumpActions, if_pos hc]
    rw [heq]
    constructor
    · simp [hc.1, hc.2]
    · intro _
      rfl
  · have heq : dumpActions buflen singleShot r =
        (pmDumpSlices buflen r).map DumpAct.pump := by
      simp only [dumpActions, if_neg hc, List.nil_append]
    rw [heq]
    constructor
    · constructor
      · intro hmem
        simp only [List.mem_map] at hmem
        obtain ⟨a, -, hpa⟩ := hmem
        simp at hpa
      · intro hcond
        exact absurd ⟨hcond.2, hcond.1⟩ hc
    · intro hmem
      exfalso
      simp only [List.mem_map] at hmem
      obtain ⟨a, -, hpa⟩ := hmem
      simp at hpa

/-- Claim C8: orbmortem's network connection uses the configured port when
TPIU framing is in use, and `port + 1` when it is not. -/
theorem orbmortem_connect_port (port : Nat) :
    orbmortemConnectPort port true = port ∧ orbmortemConnectPort port false = port + 1 := by
  simp [orbmortemConnectPort]

/-- Claim C9: `TPIUGetPacket` returns true exactly when `byteCount` is zero
and the packet pointer is non-null; whenever it returns false it leaves the
decoder state and the supplied packet buffer untouched. -/
theorem tpiu_getpacket_guard (t : TPIUDecoder) (p : Option TPIUPacket) :
    ((TPIUGetPacket t p).1 = true ↔ t.byteCount = 0 ∧ p ≠ none) ∧
    ((TPIUGetPacket t p).1 = false → TPIUGetPacket t p = (false, t, p)) := by
  by_cases hb : t.byteCount ≠ 0 ∨ p = none
  · have heq : TPIUGetPacket t p = (false, t, p) := by
      simp only [TPIUGetPacket, if_pos hb]
    constructor
    · rw [heq]
      constructor
      · intro hcontra
        simp at hcontra
      · intro hgood
        rcases hb with hb | hb
        · exact absurd hgood.1 hb
        · exact absurd hb hgood.2
    · intro _
      exact heq
  · have hne := hb
    push_neg at hb
    have h1 : (TPIUGetPacket t p).1 = true := by
      simp only [TPIUGetPacket, if_neg hne]
    constructor
    · rw [h1]
      simp [hb.1, hb.2]
    · intro hfalse
      rw [h1] at hfalse
      simp at hfalse

/-- Claim C10: starting from `TPIUDecoderInit` of the zero-initialised
decoder, any interleaving of `TPIUPump` calls and `TPIUDecoderForceSync`
calls with offset 0 keeps `byteCount` even and at most 14, so both frame
stores (`byteCount` and `byteCount + 1`) stay inside the 16-byte
scratch. -/
theorem tpiu_bytecount_safe (ops : List TPIUOp) :
    (applyTPIUOps (TPIUDecoderInit zeroedTPIUDecoder) ops).byteCount % 2 = 0 ∧
    (applyTPIUOps (TPIUDecoderInit zeroedTPIUDecoder) ops).byteCount ≤ 14 ∧
    (applyTPIUOps (TPIUDecoderInit zeroedTPIUDecoder) ops).byteCount + 1 < TPIU_PACKET_LEN := by
  have key : ∀ (l : List TPIUOp) (t : TPIUDecoder),
      t.byteCount % 2 = 0 → t.byteCount ≤ 14 →
      (applyTPIUOps t l).byteCount % 2 = 0 ∧ (applyTPIUOps t l).byteCount ≤ 14 := by
    intro l
    induction l with
    | nil => intro t h2 h14; exact ⟨h2, h14⟩
    | cons op rest ih =>
      intro t h2 h14
      have hfold : applyTPIUOps t (op :: rest) = applyTPIUOps (applyTPIUOp t op) rest := by
        simp [applyTPIUOps]
      rw [hfold]
      cases op with
      | pump d now =>
        have hs := tpiu_pump_byteCount_inv t d now h2 h14
        exact ih (applyTPIUOp t (TPIUOp.pump d now)) hs.1 hs.2
      | forceSync now =>
        have hz : (applyTPIUOp t (TPIUOp.forceSync now)).byteCount = 0 :=
          tpiu_forcesync_byteCount t now
        exact ih _ (by rw [hz]) (by rw [hz]; omega)
  have h := key ops (TPIUDecoderInit zeroedTPIUDecoder) (by decide) (by decide)
  refine ⟨h.1, h.2, ?_⟩
  have h14 := h.2
  simp only [TPIU_PACKET_LEN]
  omega

end Orb
